import Mathlib

/-!
# Chat-Privacy: verification of the client-side encryption and storage core

Shallow embedding of the Chat-Privacy client (`src/lib/encryption.ts`,
`src/lib/storage.ts`, `src/lib/websocket.ts`, `src/lib/webrtc.ts`,
`src/components/ChatInterface.tsx`, `src/app/page.tsx`).

Modelling conventions:
* `Uint8Array` byte buffers are `List Nat`.
* libsodium's base64 codec (`to_base64`/`from_base64`, variant ORIGINAL) is a
  bijection between byte buffers and their base64 strings; it is modelled by the
  wrapper type `B64` whose constructor/projection play the role of the two
  library functions, so `keyToString`/`stringToKey` keep the exact round-trip
  contract of the library.
* libsodium's `crypto_box` primitives (library code, not part of this
  repository) are modelled algebraically: a Diffie-Hellman style key pair
  `pk = 3 ^ sk`, a commutative shared key, a reversible stream cipher and an
  authentication tag.  The model preserves the interface contract the
  repository code relies on (box/open inverse for matching key pairs,
  detectable authentication failure) while every wrapper in `encryption.ts`
  (`encryptMessage`, `decryptMessage`, `keyToString`, `stringToKey`) is
  translated statement by statement.
* `localStorage` is modelled by the `Store` record holding the five keys the
  source uses; JSON serialization of the history map is a bijection and the
  store holds the parsed form directly.
* Randomness (`randombytes_buf`) and clock reads (`Date.now()`) are explicit
  parameters.
* A thrown JS exception is an `Option`/error value; a `try`/`catch` is the
  corresponding `match`.
-/

/-- Base64 text (libsodium variant ORIGINAL): modelled as the bijective image
of the decoded byte buffer. -/
structure B64 where
  data : List Nat
deriving DecidableEq, Repr

/-- `KeyPair` from `encryption.ts`. -/
structure KeyPair where
  publicKey : List Nat
  privateKey : List Nat
deriving DecidableEq, Repr

/-- `EncryptedMessage` from `encryption.ts`: ciphertext, nonce and the
sender's public key, all base64-encoded. -/
structure EncryptedMessage where
  ciphertext : B64
  nonce : B64
  publicKey : B64
deriving DecidableEq, Repr

/-- `keyToString` (`encryption.ts` line 46): `sodium.to_base64` on a buffer. -/
def keyToString (key : List Nat) : B64 := ⟨key⟩

/-- `stringToKey` (`encryption.ts` line 53): `sodium.from_base64`. -/
def stringToKey (keyString : B64) : List Nat := keyString.data

/-- The number encoded by a byte buffer (model device used by the algebraic
sodium primitives). -/
def keyNum (k : List Nat) : Nat := Nat.ofDigits 256 k

/-- Model of the Curve25519 shared secret: `pk ^ sk` over the toy group, which
is symmetric between the two sides of a box. -/
def sharedKey (pk sk : List Nat) : Nat := keyNum pk ^ keyNum sk

/-- Model of `sodium.crypto_box_keypair()` (`encryption.ts` line 36): the
CSPRNG output is the explicit `seed`, the public key is the group element
`3 ^ seed`. -/
def generateKeyPair (seed : Nat) : KeyPair :=
  { publicKey := Nat.digits 256 (3 ^ seed), privateKey := Nat.digits 256 seed }

/-- Authentication tag of the modelled box construction. -/
def boxTag (k : Nat) (nonce m : List Nat) : Nat := k + keyNum nonce + m.foldl (· + ·) 0

/-- Model of `sodium.crypto_box(message, nonce, recipientPublicKey,
senderPrivateKey)`: tag followed by the keystream-shifted message bytes. -/
def crypto_box (m nonce pk sk : List Nat) : List Nat :=
  let k := sharedKey pk sk
  boxTag k nonce m :: m.map (fun b => b + k)

/-- Model of `sodium.crypto_box_open(ciphertext, nonce, senderPublicKey,
recipientPrivateKey)`: recovers the message and checks the tag; `none` is the
thrown authentication failure. -/
def crypto_box_open (c nonce pk sk : List Nat) : Option (List Nat) :=
  let k := sharedKey pk sk
  match c with
  | [] => none
  | t :: rest =>
    let m := rest.map (fun b => b - k)
    if t = boxTag k nonce m ∧ rest = m.map (fun b => b + k) then some m else none

/-- Model of `sodium.from_string`: UTF code points of the message. -/
def from_string (s : String) : List Nat := s.data.map Char.toNat

/-- Model of `sodium.to_string`. -/
def to_string (l : List Nat) : String := String.mk (l.map Char.ofNat)

/-- `encryptMessage` (`encryption.ts` lines 62-86).  The fresh random nonce of
line 71 is the explicit `nonce` parameter. -/
def encryptMessage (message : String) (recipientPublicKey senderPrivateKey senderPublicKey : List Nat)
    (nonce : List Nat) : EncryptedMessage :=
  { ciphertext := keyToString (crypto_box (from_string message) nonce recipientPublicKey senderPrivateKey),
    nonce := keyToString nonce,
    publicKey := keyToString senderPublicKey }

/-- `decryptMessage` (`encryption.ts` lines 92-114): base64-decodes ciphertext
and nonce, opens the box; the `catch`/`throw` of lines 102-113 is the `none`
branch. -/
def decryptMessage (encrypted : EncryptedMessage) (senderPublicKey recipientPrivateKey : List Nat) :
    Option String :=
  let ciphertext := stringToKey encrypted.ciphertext
  let nonce := stringToKey encrypted.nonce
  match crypto_box_open ciphertext nonce senderPublicKey recipientPrivateKey with
  | some decrypted => some (to_string decrypted)
  | none => none

lemma to_string_from_string (s : String) : to_string (from_string s) = s := by
  simp only [to_string, from_string, List.map_map]
  have : (Char.ofNat ∘ Char.toNat) = id := by
    funext c
    exact Char.ofNat_toNat c
  rw [this, List.map_id]

lemma sharedKey_comm (a b : Nat) :
    sharedKey (generateKeyPair b).publicKey (generateKeyPair a).privateKey
      = sharedKey (generateKeyPair a).publicKey (generateKeyPair b).privateKey := by
  simp only [sharedKey, generateKeyPair, keyNum, Nat.ofDigits_digits]
  exact pow_right_comm 3 b a

lemma crypto_box_open_box_of_sharedKey_eq (m nonce pk1 sk1 pk2 sk2 : List Nat)
    (h : sharedKey pk2 sk2 = sharedKey pk1 sk1) :
    crypto_box_open (crypto_box m nonce pk1 sk1) nonce pk2 sk2 = some m := by
  simp only [crypto_box, crypto_box_open, h]
  have hmap : (m.map (fun x => x + sharedKey pk1 sk1)).map (fun x => x - sharedKey pk1 sk1) = m := by
    rw [List.map_map]
    have hcomp : ((fun x => x - sharedKey pk1 sk1) ∘ fun x => x + sharedKey pk1 sk1) = id := by
      funext x
      simp
    rw [hcomp, List.map_id]
  rw [hmap]
  simp

lemma crypto_box_open_box (m nonce : List Nat) (a b : Nat) :
    crypto_box_open (crypto_box m nonce (generateKeyPair b).publicKey (generateKeyPair a).privateKey)
      nonce (generateKeyPair a).publicKey (generateKeyPair b).privateKey = some m :=
  crypto_box_open_box_of_sharedKey_eq m nonce _ _ _ _ (sharedKey_comm a b).symm

/-- C1. Round-trip: for every plaintext `P` and every pair of key pairs `S`,
`R` produced by `generateKeyPair`, decrypting
`encryptMessage(P, R.publicKey, S.privateKey, S.publicKey)` with
`decryptMessage(·, S.publicKey, R.privateKey)` returns `P`, through the
base64 encoding and decoding of ciphertext and nonce done by
`keyToString`/`stringToKey`. -/
theorem encrypt_decrypt_roundtrip (P : String) (sa sb : Nat) (nonce : List Nat) :
    decryptMessage
        (encryptMessage P (generateKeyPair sb).publicKey (generateKeyPair sa).privateKey
          (generateKeyPair sa).publicKey nonce)
        (generateKeyPair sa).publicKey (generateKeyPair sb).privateKey = some P := by
  simp only [decryptMessage, encryptMessage, keyToString, stringToKey]
  rw [crypto_box_open_box]
  simp [to_string_from_string]

/-- `UserData` (`storage.ts` lines 14-18): username plus the base64-encoded
key pair as persisted in local storage. -/
structure UserData where
  username : String
  publicKey : B64
  privateKey : B64
deriving DecidableEq, Repr

/-- `StoredMessage` (`storage.ts` lines 79-90). -/
structure StoredMessage where
  id : String
  «from» : String
  «to» : String
  encrypted : EncryptedMessage
  timestamp : Int
  decrypted : Option String
deriving DecidableEq, Repr

/-- `ChatHistory` (`storage.ts` lines 95-97): a JS object keyed by the other
user's username, modelled as its lookup function. -/
def ChatHistory := String → Option (List StoredMessage)

/-- The parsed local storage of the client: the five `STORAGE_KEYS` of
`storage.ts` lines 6-12 (`MESSAGES` holds the parsed `ChatHistory`; a missing
key is `none`). -/
structure Store where
  username : Option String
  publicKey : Option B64
  privateKey : Option B64
  currentChat : Option String
  messages : Option ChatHistory

/-- The empty JS object `{}` used when no history is stored yet. -/
def emptyHistory : ChatHistory := fun _ => none

/-- `history[u] = conv` (JS object property write). -/
def histSet (u : String) (conv : List StoredMessage) (h : ChatHistory) : ChatHistory :=
  fun k => if k = u then some conv else h k

/-- `delete history[u]` (JS object property delete). -/
def histDelete (u : String) (h : ChatHistory) : ChatHistory :=
  fun k => if k = u then none else h k

/-- `getUserData` (`storage.ts` lines 34-46). -/
def getUserData (s : Store) : Option UserData :=
  match s.username, s.publicKey, s.privateKey with
  | some u, some pk, some sk => some ⟨u, pk, sk⟩
  | _, _, _ => none

/-- `saveUserData` (`storage.ts` lines 23-29). -/
def saveUserData (data : UserData) (s : Store) : Store :=
  { s with username := some data.username, publicKey := some data.publicKey,
           privateKey := some data.privateKey }

/-- `clearUserData` (`storage.ts` lines 51-58): removes the username, the two
keys and the current-chat record (and nothing else). -/
def clearUserData (s : Store) : Store :=
  { s with username := none, publicKey := none, privateKey := none, currentChat := none }

/-- `saveCurrentChat` (`storage.ts` lines 63-66). -/
def saveCurrentChat (username : String) (s : Store) : Store :=
  { s with currentChat := some username }

/-- `getCurrentChat` (`storage.ts` lines 71-74). -/
def getCurrentChat (s : Store) : Option String := s.currentChat

/-- Stable ascending insertion used to model `Array.prototype.sort` with the
comparator `(a, b) => a.timestamp - b.timestamp` (`storage.ts` line 127): the
element is placed before the first strictly greater timestamp, after all equal
ones. -/
def insertTs (m : StoredMessage) : List StoredMessage → List StoredMessage
  | [] => [m]
  | x :: xs => if m.timestamp < x.timestamp then m :: x :: xs else x :: insertTs m xs

/-- Model of the stable JS sort by ascending timestamp: left-to-right
insertion keeps equal-timestamp elements in array order. -/
def sortTs (l : List StoredMessage) : List StoredMessage :=
  l.foldl (fun acc x => insertTs x acc) []

/-- The retention cap of `storage.ts` lines 131-133:
`history[otherUser] = history[otherUser].slice(-5000)` once the length
exceeds 5000. -/
def capConv (l : List StoredMessage) : List StoredMessage :=
  if l.length > 5000 then l.drop (l.length - 5000) else l

/-- The `otherUser` of `storage.ts` line 115: the conversation a message
belongs to is keyed by the non-local party. -/
def otherUser (userData : UserData) (message : StoredMessage) : String :=
  if message.«from» == userData.username then message.«to» else message.«from»

/-- `saveMessageToHistory` (`storage.ts` lines 103-140): no-op without user
data, duplicate-id suppression, timestamp sort, retention cap. -/
def saveMessageToHistory (message : StoredMessage) (s : Store) : Store :=
  match getUserData s with
  | none => s
  | some userData =>
    let history := s.messages.getD emptyHistory
    let conv := (history (otherUser userData message)).getD []
    if conv.any (fun m => m.id == message.id) then s
    else
      let conv2 := capConv (sortTs (conv ++ [message]))
      { s with messages := some (histSet (otherUser userData message) conv2 history) }

/-- `getChatHistory` (`storage.ts` lines 145-158). -/
def getChatHistory (s : Store) (username : String) : List StoredMessage :=
  match s.messages with
  | none => []
  | some h => (h username).getD []

/-- `clearChatHistory` (`storage.ts` lines 163-176): deletes only the one
conversation key; a missing history map is left untouched. -/
def clearChatHistory (username : String) (s : Store) : Store :=
  match s.messages with
  | none => s
  | some h => { s with messages := some (histDelete username h) }

/-- `clearAllChatHistory` (`storage.ts` lines 181-184). -/
def clearAllChatHistory (s : Store) : Store :=
  { s with messages := none }

/-- `handleLogout` (`page.tsx` lines 32-36): the only storage effect of an
explicit logout is `clearUserData()`. -/
def handleLogout (s : Store) : Store := clearUserData s

/-- C6 (amended). `clearUserData` (and hence `handleLogout`) removes the
identity fields and the current-chat record, but leaves the stored message
history untouched: the `chat_privacy_messages` key is not cleared on logout. -/
theorem clearUserData_leaves_history (s : Store) :
    (clearUserData s).username = none ∧ (clearUserData s).publicKey = none ∧
      (clearUserData s).privateKey = none ∧ (clearUserData s).currentChat = none ∧
      (clearUserData s).messages = s.messages ∧ handleLogout s = clearUserData s :=
  ⟨rfl, rfl, rfl, rfl, rfl, rfl⟩

/-- A concrete logged-in store with one stored message, used as
counterexample input. -/
def demoMsg : StoredMessage :=
  { id := "m1", «from» := "alice", «to» := "bob",
    encrypted := ⟨⟨[1]⟩, ⟨[2]⟩, ⟨[3]⟩⟩, timestamp := 10, decrypted := none }

/-- A populated store: alice is logged in and one message with bob is stored. -/
def demoLoggedInStore : Store :=
  { username := some "alice", publicKey := some ⟨[7]⟩, privateKey := some ⟨[8]⟩,
    currentChat := some "bob", messages := some (histSet "bob" [demoMsg] emptyHistory) }

/-- C6 counterexample: after `clearUserData` runs on a store holding one
message, `getChatHistory` still returns that message, so stored message
history does remain in local storage. -/
theorem clearUserData_keeps_history_counterexample :
    getChatHistory (clearUserData demoLoggedInStore) "bob" = [demoMsg] ∧
      getChatHistory (clearUserData demoLoggedInStore) "bob" ≠ [] := by
  constructor
  · rfl
  · intro h
    simp [getChatHistory, clearUserData, demoLoggedInStore, histSet, emptyHistory] at h

/-- C10. `clearChatHistory u` is frame-local: every other conversation reads
back unchanged, the cleared conversation reads back empty, and the identity
record and current-chat record are untouched. -/
theorem clearChatHistory_frame :
    (∀ s u v, v ≠ u → getChatHistory (clearChatHistory u s) v = getChatHistory s v) ∧
      (∀ s u, getChatHistory (clearChatHistory u s) u = []) ∧
      (∀ s u, getUserData (clearChatHistory u s) = getUserData s ∧
        getCurrentChat (clearChatHistory u s) = getCurrentChat s) := by
  refine ⟨fun s u v hvu => ?_, fun s u => ?_, fun s u => ?_⟩
  · cases hm : s.messages with
    | none => simp [clearChatHistory, hm]
    | some h => simp [clearChatHistory, getChatHistory, hm, histDelete, hvu]
  · cases hm : s.messages with
    | none => simp [clearChatHistory, getChatHistory, hm]
    | some h => simp [clearChatHistory, getChatHistory, hm, histDelete]
  · cases hm : s.messages with
    | none => simp [clearChatHistory, hm]
    | some h => simp [clearChatHistory, getUserData, getCurrentChat, hm]

/-- A second populated store: conversations with both bob and carol. -/
def demoTwoConvStore : Store :=
  { username := some "alice", publicKey := some ⟨[7]⟩, privateKey := some ⟨[8]⟩,
    currentChat := some "bob",
    messages := some (histSet "carol" [{ demoMsg with id := "m2", «to» := "carol" }]
      (histSet "bob" [demoMsg] emptyHistory)) }

/-- C10 witness: clearing bob's conversation in a concrete two-conversation
store leaves carol's conversation exactly as it was. -/
theorem clearChatHistory_frame_witness :
    ("carol" ≠ "bob") ∧
      getChatHistory (clearChatHistory "bob" demoTwoConvStore) "carol"
        = getChatHistory demoTwoConvStore "carol" :=
  ⟨by decide, clearChatHistory_frame.1 demoTwoConvStore "bob" "carol" (by decide)⟩

/-- The ordering the JS comparator sorts by: ascending timestamp. -/
def tsLe (a b : StoredMessage) : Prop := a.timestamp ≤ b.timestamp

lemma insertTs_length (m : StoredMessage) (l : List StoredMessage) :
    (insertTs m l).length = l.length + 1 := by
  induction l with
  | nil => rfl
  | cons x xs ih =>
    simp only [insertTs]
    split
    · simp
    · simp [ih]

lemma mem_insertTs {a m : StoredMessage} {l : List StoredMessage} :
    a ∈ insertTs m l ↔ a = m ∨ a ∈ l := by
  induction l with
  | nil => simp [insertTs]
  | cons x xs ih =>
    simp only [insertTs]
    split
    · simp [or_comm, or_assoc, or_left_comm]
    · simp [ih]
      tauto

lemma insertTs_perm (m : StoredMessage) (l : List StoredMessage) :
    (insertTs m l).Perm (m :: l) := by
  induction l with
  | nil => exact List.Perm.refl _
  | cons x xs ih =>
    simp only [insertTs]
    split
    · exact List.Perm.refl _
    · exact (ih.cons x).trans (List.Perm.swap m x xs)

lemma sortTs_append_singleton (l : List StoredMessage) (x : StoredMessage) :
    sortTs (l ++ [x]) = insertTs x (sortTs l) := by
  simp [sortTs, List.foldl_append]

lemma sortTs_perm (l : List StoredMessage) : (sortTs l).Perm l := by
  induction l using List.reverseRecOn with
  | nil => exact List.Perm.refl _
  | append_singleton l x ih =>
    rw [sortTs_append_singleton]
    exact ((insertTs_perm x (sortTs l)).trans (ih.cons x)).trans
      (List.perm_append_singleton x l).symm

lemma sortTs_length (l : List StoredMessage) : (sortTs l).length = l.length :=
  (sortTs_perm l).length_eq

lemma pairwise_insertTs {m : StoredMessage} {l : List StoredMessage}
    (h : l.Pairwise tsLe) : (insertTs m l).Pairwise tsLe := by
  induction l with
  | nil => simp [insertTs, tsLe]
  | cons x xs ih =>
    rw [List.pairwise_cons] at h
    simp only [insertTs]
    split
    · rename_i hlt
      refine List.pairwise_cons.mpr ⟨?_, List.pairwise_cons.mpr h⟩
      intro y hy
      rcases List.mem_cons.mp hy with rfl | hy
      · exact le_of_lt hlt
      · exact le_trans (le_of_lt hlt) (h.1 y hy)
    · rename_i hnlt
      refine List.pairwise_cons.mpr ⟨?_, ih h.2⟩
      intro y hy
      rcases mem_insertTs.mp hy with rfl | hy
      · exact le_of_not_lt hnlt
      · exact h.1 y hy

lemma sortTs_pairwise (l : List StoredMessage) : (sortTs l).Pairwise tsLe := by
  induction l using List.reverseRecOn with
  | nil => simp [sortTs]
  | append_singleton l x ih =>
    rw [sortTs_append_singleton]
    exact pairwise_insertTs ih

lemma insertTs_of_forall_not_lt {m : StoredMessage} {l : List StoredMessage}
    (h : ∀ x ∈ l, ¬ m.timestamp < x.timestamp) : insertTs m l = l ++ [m] := by
  induction l with
  | nil => rfl
  | cons x xs ih =>
    simp only [insertTs]
    rw [if_neg (h x (List.mem_cons_self x xs))]
    simp [ih fun y hy => h y (List.mem_cons_of_mem x hy)]

lemma insertTs_eq_cons_of_forall_lt {m : StoredMessage} {l : List StoredMessage}
    (h : ∀ x ∈ l, m.timestamp < x.timestamp) : insertTs m l = m :: l := by
  cases l with
  | nil => rfl
  | cons x xs => simp [insertTs, h x (List.mem_cons_self x xs)]

lemma sortTs_of_pairwise {l : List StoredMessage} (h : l.Pairwise tsLe) : sortTs l = l := by
  induction l using List.reverseRecOn with
  | nil => rfl
  | append_singleton l x ih =>
    rw [List.pairwise_append] at h
    rw [sortTs_append_singleton, ih h.1]
    refine insertTs_of_forall_not_lt fun y hy => not_lt.mpr ?_
    exact h.2.2 y hy x (List.mem_singleton_self x)

lemma insertTs_append_of_forall {m : StoredMessage} {a b : List StoredMessage}
    (ha : ∀ x ∈ a, ¬ m.timestamp < x.timestamp)
    (hb : ∀ x ∈ b, m.timestamp < x.timestamp) :
    insertTs m (a ++ b) = a ++ m :: b := by
  induction a with
  | nil => simpa using insertTs_eq_cons_of_forall_lt hb
  | cons x xs ih =>
    simp only [List.cons_append, insertTs]
    rw [if_neg (ha x (List.mem_cons_self x xs))]
    simp [ih fun y hy => ha y (List.mem_cons_of_mem x hy)]

lemma insertTs_sorted_decomp {l : List StoredMessage} (m : StoredMessage)
    (h : l.Pairwise tsLe) :
    ∃ l1 l2, l = l1 ++ l2 ∧ insertTs m l = l1 ++ m :: l2 ∧
      (∀ x ∈ l1, ¬ m.timestamp < x.timestamp) ∧
      (∀ x ∈ l2, m.timestamp < x.timestamp) := by
  induction l with
  | nil => exact ⟨[], [], rfl, rfl, by simp, by simp⟩
  | cons x xs ih =>
    rw [List.pairwise_cons] at h
    by_cases hlt : m.timestamp < x.timestamp
    · refine ⟨[], x :: xs, rfl, by simp [insertTs, hlt], by simp, ?_⟩
      intro y hy
      rcases List.mem_cons.mp hy with rfl | hy
      · exact hlt
      · exact lt_of_lt_of_le hlt (h.1 y hy)
    · obtain ⟨l1, l2, he, hi, h1, h2⟩ := ih h.2
      refine ⟨x :: l1, l2, by simp [he], ?_, ?_, h2⟩
      · simp [insertTs, hlt, hi]
      · intro y hy
        rcases List.mem_cons.mp hy with rfl | hy
        · exact hlt
        · exact h1 y hy

lemma drop_one_insertTs_drop {S : List StoredMessage} (hS : S.Pairwise tsLe)
    (m : StoredMessage) (j : Nat) :
    (insertTs m (S.drop j)).drop 1 = (insertTs m S).drop (j + 1) := by
  obtain ⟨l1, l2, hs, hins, h1, h2⟩ := insertTs_sorted_decomp m hS
  subst hs
  rw [hins]
  by_cases hj : j ≤ l1.length
  · rw [List.drop_append_of_le_length hj]
    rw [insertTs_append_of_forall (fun x hx => h1 x (List.mem_of_mem_drop hx)) h2]
    rcases Nat.lt_or_ge j l1.length with hlt | hge
    · rw [List.drop_append_of_le_length (by omega : j + 1 ≤ l1.length)]
      rw [List.drop_append_of_le_length (by simp; omega : 1 ≤ (l1.drop j).length)]
      rw [List.drop_drop]
    · have hje : j = l1.length := le_antisymm hj hge
      subst hje
      rw [List.drop_length]
      have : (l1 ++ m :: l2).drop (l1.length + 1) = (m :: l2).drop 1 := List.drop_append 1
      rw [this]
      rfl
  · push_neg at hj
    rw [List.drop_append_eq_append_drop, List.drop_eq_nil_of_le (le_of_lt hj), List.nil_append]
    rw [insertTs_eq_cons_of_forall_lt fun x hx => h2 x (List.mem_of_mem_drop hx)]
    rw [List.drop_append_eq_append_drop, List.drop_eq_nil_of_le (by omega : l1.length ≤ j + 1),
      List.nil_append]
    have harith : j + 1 - l1.length = (j - l1.length) + 1 := by omega
    rw [harith, List.drop_succ_cons]
    rfl

lemma getChatHistory_eq_conv (s : Store) (u : String) :
    getChatHistory s u = ((s.messages.getD emptyHistory) u).getD [] := by
  cases h : s.messages with
  | none => simp [getChatHistory, h, emptyHistory]
  | some hist => simp [getChatHistory, h]

lemma saveMessageToHistory_of_userData {s : Store} {ud : UserData} (m : StoredMessage)
    (h : getUserData s = some ud) :
    saveMessageToHistory m s =
      (if (getChatHistory s (otherUser ud m)).any (fun x => x.id == m.id) then s
       else { s with messages := some (histSet (otherUser ud m)
          (capConv (sortTs (getChatHistory s (otherUser ud m) ++ [m])))
          (s.messages.getD emptyHistory)) }) := by
  unfold saveMessageToHistory
  rw [h, getChatHistory_eq_conv]

lemma saveMessageToHistory_of_no_userData {s : Store} (m : StoredMessage)
    (h : getUserData s = none) : saveMessageToHistory m s = s := by
  unfold saveMessageToHistory
  rw [h]

lemma getUserData_update_messages (s : Store) (x : Option ChatHistory) :
    getUserData { s with messages := x } = getUserData s := rfl

lemma getUserData_save (m : StoredMessage) (s : Store) :
    getUserData (saveMessageToHistory m s) = getUserData s := by
  cases h : getUserData s with
  | none => rw [saveMessageToHistory_of_no_userData m h, h]
  | some ud =>
    rw [saveMessageToHistory_of_userData m h]
    split
    · rw [h]
    · rw [getUserData_update_messages, h]

lemma getChatHistory_save_self {s : Store} {ud : UserData} (m : StoredMessage)
    (h : getUserData s = some ud) :
    getChatHistory (saveMessageToHistory m s) (otherUser ud m) =
      (if (getChatHistory s (otherUser ud m)).any (fun x => x.id == m.id)
       then getChatHistory s (otherUser ud m)
       else capConv (sortTs (getChatHistory s (otherUser ud m) ++ [m]))) := by
  rw [saveMessageToHistory_of_userData m h]
  split
  · rfl
  · rw [getChatHistory_eq_conv]
    simp [histSet]

lemma getChatHistory_save_ne {s : Store} {ud : UserData} (m : StoredMessage)
    (h : getUserData s = some ud) (v : String) (hv : v ≠ otherUser ud m) :
    getChatHistory (saveMessageToHistory m s) v = getChatHistory s v := by
  rw [saveMessageToHistory_of_userData m h]
  split
  · rfl
  · rw [getChatHistory_eq_conv, getChatHistory_eq_conv s v]
    simp [histSet, hv]

lemma store_set_messages_self (s : Store) (x : Option ChatHistory) (h : s.messages = x) :
    { s with messages := x } = s := by
  cases s
  cases h
  rfl

lemma mem_capConv {x : StoredMessage} {l : List StoredMessage} (h : x ∈ capConv l) : x ∈ l := by
  unfold capConv at h
  split at h
  · exact List.mem_of_mem_drop h
  · exact h

lemma capConv_pairwise {l : List StoredMessage} (h : l.Pairwise tsLe) :
    (capConv l).Pairwise tsLe := by
  unfold capConv
  split
  · exact h.sublist (List.drop_sublist _ l)
  · exact h

lemma length_capConv_le (l : List StoredMessage) (h : l.length ≤ 5001) :
    (capConv l).length ≤ 5000 := by
  unfold capConv
  split
  · simp
    omega
  · omega

lemma capConv_of_gt {l : List StoredMessage} (h : l.length > 5000) :
    capConv l = l.drop (l.length - 5000) := by
  unfold capConv
  rw [if_pos h]

lemma capConv_of_le {l : List StoredMessage} (h : l.length ≤ 5000) : capConv l = l := by
  unfold capConv
  rw [if_neg (by omega)]

lemma capConv_sortTs_self_of_not_mem {c : List StoredMessage} {m : StoredMessage}
    (hm : m ∉ capConv (sortTs (c ++ [m]))) :
    capConv (sortTs (capConv (sortTs (c ++ [m])) ++ [m])) = capConv (sortTs (c ++ [m])) := by
  have hmem_l : m ∈ sortTs (c ++ [m]) := (sortTs_perm (c ++ [m])).mem_iff.mpr (by simp)
  have hcap : (sortTs (c ++ [m])).length > 5000 := by
    by_contra hle
    push_neg at hle
    have he : capConv (sortTs (c ++ [m])) = sortTs (c ++ [m]) := capConv_of_le (by omega)
    exact hm (he.symm ▸ hmem_l)
  have hsorted : (sortTs c).Pairwise tsLe := sortTs_pairwise c
  obtain ⟨l1, l2, hdec, hins, hns1, hlt2⟩ := insertTs_sorted_decomp m hsorted
  have hleq : sortTs (c ++ [m]) = l1 ++ m :: l2 := by
    rw [sortTs_append_singleton, hins]
  rw [hleq] at hm hcap ⊢
  have hkgt : l1.length < (l1 ++ m :: l2).length - 5000 := by
    by_contra hle
    push_neg at hle
    refine hm ?_
    rw [capConv_of_gt hcap, List.drop_append_of_le_length hle]
    simp
  have hc2drop : capConv (l1 ++ m :: l2)
      = l2.drop ((l1 ++ m :: l2).length - 5000 - l1.length - 1) := by
    rw [capConv_of_gt hcap, List.drop_append_eq_append_drop,
        List.drop_eq_nil_of_le (le_of_lt hkgt), List.nil_append]
    have harith : (l1 ++ m :: l2).length - 5000 - l1.length
        = ((l1 ++ m :: l2).length - 5000 - l1.length - 1) + 1 := by omega
    rw [harith, List.drop_succ_cons]
    simp
  have hgt : ∀ x ∈ capConv (l1 ++ m :: l2), m.timestamp < x.timestamp := by
    intro x hx
    rw [hc2drop] at hx
    exact hlt2 x (List.mem_of_mem_drop hx)
  have hlp : (l1 ++ m :: l2).Pairwise tsLe := by
    rw [← hins]
    exact pairwise_insertTs hsorted
  have hc2sorted : (capConv (l1 ++ m :: l2)).Pairwise tsLe := capConv_pairwise hlp
  have hlen2 : (capConv (l1 ++ m :: l2)).length = 5000 := by
    rw [capConv_of_gt hcap, List.length_drop]
    omega
  rw [sortTs_append_singleton, sortTs_of_pairwise hc2sorted, insertTs_eq_cons_of_forall_lt hgt]
  rw [capConv_of_gt (by simp [hlen2])]
  simp [hlen2]

lemma not_any_id_capConv {c : List StoredMessage} {m : StoredMessage}
    (hids : ∀ x ∈ c, x.id ≠ m.id) (hm : m ∉ capConv (sortTs (c ++ [m]))) :
    (capConv (sortTs (c ++ [m]))).any (fun x => x.id == m.id) = false := by
  refine List.any_eq_false.mpr ?_
  intro x hx
  simp only [beq_iff_eq]
  intro hxe
  have hxl : x ∈ sortTs (c ++ [m]) := mem_capConv hx
  have hxcm : x ∈ c ++ [m] := (sortTs_perm (c ++ [m])).mem_iff.mp hxl
  rcases List.mem_append.mp hxcm with hxc | hxm
  · exact hids x hxc hxe
  · have hxm' : x = m := by simpa using hxm
    exact hm (hxm' ▸ hx)

/-- C3. Appending the same message twice with `saveMessageToHistory` leaves
local storage exactly as after appending it once: the second append is a
no-op (same conversation length and content), for every starting store and
every message — including the corner where the retention cap evicted the
message itself on the first append. -/
theorem saveMessageToHistory_idem (m : StoredMessage) (s : Store) :
    saveMessageToHistory m (saveMessageToHistory m s) = saveMessageToHistory m s := by
  cases hud : getUserData s with
  | none =>
    have h1 : saveMessageToHistory m s = s := saveMessageToHistory_of_no_userData m hud
    rw [h1]
    exact h1
  | some ud =>
    by_cases hany : (getChatHistory s (otherUser ud m)).any (fun x => x.id == m.id)
    · have h1 : saveMessageToHistory m s = s := by
        rw [saveMessageToHistory_of_userData m hud, if_pos hany]
      rw [h1]
      exact h1
    · have hud' : getUserData (saveMessageToHistory m s) = some ud := by
        rw [getUserData_save, hud]
      have hc' : getChatHistory (saveMessageToHistory m s) (otherUser ud m)
          = capConv (sortTs (getChatHistory s (otherUser ud m) ++ [m])) := by
        rw [getChatHistory_save_self m hud, if_neg hany]
      by_cases hm : m ∈ capConv (sortTs (getChatHistory s (otherUser ud m) ++ [m]))
      · rw [saveMessageToHistory_of_userData m hud',
          if_pos (by rw [hc']; exact List.any_eq_true.mpr ⟨m, hm, by simp⟩)]
      · have hids : ∀ x ∈ getChatHistory s (otherUser ud m), x.id ≠ m.id := by
          intro x hx he
          exact hany (List.any_eq_true.mpr ⟨x, hx, by simp [he]⟩)
        have hany2 : (getChatHistory (saveMessageToHistory m s) (otherUser ud m)).any
            (fun x => x.id == m.id) = false := by
          rw [hc']
          exact not_any_id_capConv hids hm
        rw [saveMessageToHistory_of_userData m hud', if_neg (by rw [hany2]; simp)]
        rw [hc', capConv_sortTs_self_of_not_mem hm]
        have hmsg1 : (saveMessageToHistory m s).messages
            = some (histSet (otherUser ud m)
                (capConv (sortTs (getChatHistory s (otherUser ud m) ++ [m])))
                (s.messages.getD emptyHistory)) := by
          rw [saveMessageToHistory_of_userData m hud, if_neg hany]
        rw [hmsg1, Option.getD_some]
        have hidem2 : histSet (otherUser ud m)
              (capConv (sortTs (getChatHistory s (otherUser ud m) ++ [m])))
              (histSet (otherUser ud m)
                (capConv (sortTs (getChatHistory s (otherUser ud m) ++ [m])))
                (s.messages.getD emptyHistory))
            = histSet (otherUser ud m)
                (capConv (sortTs (getChatHistory s (otherUser ud m) ++ [m])))
                (s.messages.getD emptyHistory) := by
          funext k
          unfold histSet
          split <;> rfl
        rw [hidem2]
        exact store_set_messages_self _ _ hmsg1

/-- Every stored conversation is ascending in timestamp. -/
def storeSorted (s : Store) : Prop := ∀ u, (getChatHistory s u).Pairwise tsLe

lemma save_preserves_sorted (m : StoredMessage) (s : Store) (h : storeSorted s) :
    storeSorted (saveMessageToHistory m s) := by
  cases hud : getUserData s with
  | none =>
    rw [saveMessageToHistory_of_no_userData m hud]
    exact h
  | some ud =>
    intro v
    by_cases hv : v = otherUser ud m
    · subst hv
      rw [getChatHistory_save_self m hud]
      split
      · exact h _
      · exact capConv_pairwise (sortTs_pairwise _)
    · rw [getChatHistory_save_ne m hud v hv]
      exact h v

/-- A fresh store holding only an identity (the state right after account
setup, before any message). -/
def initStore (me : UserData) : Store :=
  { username := some me.username, publicKey := some me.publicKey,
    privateKey := some me.privateKey, currentChat := none, messages := none }

lemma initStore_sorted (me : UserData) : storeSorted (initStore me) := by
  intro u
  have h : getChatHistory (initStore me) u = [] := rfl
  rw [h]
  exact List.Pairwise.nil

/-- The identity used in the concrete scenarios. -/
def aliceUser : UserData := ⟨"alice", ⟨[7]⟩, ⟨[8]⟩⟩

/-- A message from alice to bob with the given timestamp and id. -/
def msgT (t : Int) (ident : String) : StoredMessage :=
  { id := ident, «from» := "alice", «to» := "bob",
    encrypted := ⟨⟨[1]⟩, ⟨[2]⟩, ⟨[3]⟩⟩, timestamp := t, decrypted := none }

/-- C4. Conversations read back sorted by ascending timestamp: appending any
messages in any arrival order to a store whose conversations are sorted keeps
every conversation of `getChatHistory` sorted oldest-first; in particular,
inserting timestamps T1<T2<T3 in arrival order T2, T3, T1 reads back as
T1, T2, T3. -/
theorem getChatHistory_sorted_by_timestamp :
    (∀ (msgs : List StoredMessage) (s : Store) (u : String), storeSorted s →
      (getChatHistory (msgs.foldl (fun t x => saveMessageToHistory x t) s) u).Pairwise tsLe) ∧
    getChatHistory
        (([msgT 2 "t2", msgT 3 "t3", msgT 1 "t1"]).foldl
          (fun t x => saveMessageToHistory x t) (initStore aliceUser)) "bob"
      = [msgT 1 "t1", msgT 2 "t2", msgT 3 "t3"] := by
  constructor
  · intro msgs
    induction msgs with
    | nil => intro s u h; exact h u
    | cons m rest ih =>
      intro s u h
      exact ih (saveMessageToHistory m s) u (save_preserves_sorted m s h)
  · decide

/-- C4 witness: the hypothesis of the general part holds for the concrete
fresh store, and the three-message scenario of the claim reads back sorted. -/
theorem getChatHistory_sorted_by_timestamp_witness :
    storeSorted (initStore aliceUser) ∧
      (getChatHistory (([msgT 2 "t2", msgT 3 "t3", msgT 1 "t1"]).foldl
        (fun t x => saveMessageToHistory x t) (initStore aliceUser)) "bob").Pairwise tsLe :=
  ⟨initStore_sorted aliceUser,
    getChatHistory_sorted_by_timestamp.1 [msgT 2 "t2", msgT 3 "t3", msgT 1 "t1"]
      (initStore aliceUser) "bob" (initStore_sorted aliceUser)⟩

lemma getUserData_foldl_save (msgs : List StoredMessage) :
    ∀ s : Store, getUserData (msgs.foldl (fun t x => saveMessageToHistory x t) s)
      = getUserData s := by
  induction msgs with
  | nil => intro s; rfl
  | cons m rest ih =>
    intro s
    rw [List.foldl_cons, ih, getUserData_save]

lemma foldl_save_eq_drop (me : UserData) (peer : String) :
    ∀ msgs : List StoredMessage,
      msgs.Pairwise (fun a b => a.id ≠ b.id) →
      (∀ x ∈ msgs, otherUser me x = peer) →
      getChatHistory (msgs.foldl (fun t x => saveMessageToHistory x t) (initStore me)) peer
        = (sortTs msgs).drop (msgs.length - 5000) := by
  intro msgs
  induction msgs using List.reverseRecOn with
  | nil => intro _ _; rfl
  | append_singleton msgs m ih =>
    intro hids hpeer
    rw [List.pairwise_append] at hids
    have hidm : ∀ x ∈ msgs, x.id ≠ m.id :=
      fun x hx => hids.2.2 x hx m (List.mem_singleton_self m)
    have hpeer' : ∀ x ∈ msgs, otherUser me x = peer :=
      fun x hx => hpeer x (List.mem_append_left _ hx)
    have hpm : otherUser me m = peer :=
      hpeer m (List.mem_append_right _ (List.mem_singleton_self m))
    have hc := ih hids.1 hpeer'
    have hudk : getUserData (msgs.foldl (fun t x => saveMessageToHistory x t) (initStore me))
        = some me := by
      rw [getUserData_foldl_save]
      rfl
    rw [List.foldl_append]
    simp only [List.foldl_cons, List.foldl_nil]
    have hanyF : (getChatHistory (msgs.foldl (fun t x => saveMessageToHistory x t)
          (initStore me)) (otherUser me m)).any (fun x => x.id == m.id) = false := by
      rw [hpm, hc]
      refine List.any_eq_false.mpr ?_
      intro x hx
      simp only [beq_iff_eq]
      exact hidm x ((sortTs_perm msgs).mem_iff.mp (List.mem_of_mem_drop hx))
    rw [show peer = otherUser me m from hpm.symm]
    rw [getChatHistory_save_self m hudk, if_neg (by rw [hanyF]; simp)]
    rw [hpm, hc]
    have hcsorted : ((sortTs msgs).drop (msgs.length - 5000)).Pairwise tsLe :=
      (sortTs_pairwise msgs).sublist (List.drop_sublist _ _)
    rw [sortTs_append_singleton, sortTs_of_pairwise hcsorted, sortTs_append_singleton]
    rcases Nat.lt_or_ge msgs.length 5000 with hlen | hlen
    · have h0 : msgs.length - 5000 = 0 := by omega
      rw [h0, List.drop_zero]
      rw [capConv_of_le (by rw [insertTs_length, sortTs_length]; omega)]
      have h1 : (msgs ++ [m]).length - 5000 = 0 := by
        rw [List.length_append]
        simp
        omega
      rw [h1, List.drop_zero]
    · have hlc : (insertTs m ((sortTs msgs).drop (msgs.length - 5000))).length > 5000 := by
        rw [insertTs_length, List.length_drop, sortTs_length]
        omega
      rw [capConv_of_gt hlc]
      rw [insertTs_length, List.length_drop, sortTs_length]
      have h2 : msgs.length - (msgs.length - 5000) + 1 - 5000 = 1 := by omega
      rw [h2]
      rw [drop_one_insertTs_drop (sortTs_pairwise msgs) m (msgs.length - 5000)]
      have h3 : (msgs ++ [m]).length - 5000 = msgs.length - 5000 + 1 := by
        rw [List.length_append]
        simp
        omega
      rw [h3]

/-- C5. Retention cap: (a) a conversation of at most 5000 messages still has
at most 5000 after any `saveMessageToHistory`; (b) appending any distinct-id
messages of one conversation to a fresh store leaves exactly the
latest-by-timestamp suffix `drop (n - 5000)` of the time-sorted list, so the
oldest entries are the ones evicted; (c) with 5001 distinct messages exactly
5000 are retained. -/
theorem retention_cap :
    (∀ (s : Store) (m : StoredMessage) (u : String),
      (getChatHistory s u).length ≤ 5000 →
      (getChatHistory (saveMessageToHistory m s) u).length ≤ 5000) ∧
    (∀ (me : UserData) (peer : String) (msgs : List StoredMessage),
      msgs.Pairwise (fun a b => a.id ≠ b.id) →
      (∀ x ∈ msgs, otherUser me x = peer) →
      getChatHistory (msgs.foldl (fun t x => saveMessageToHistory x t) (initStore me)) peer
        = (sortTs msgs).drop (msgs.length - 5000)) ∧
    (∀ (me : UserData) (peer : String) (msgs : List StoredMessage),
      msgs.Pairwise (fun a b => a.id ≠ b.id) →
      (∀ x ∈ msgs, otherUser me x = peer) →
      msgs.length = 5001 →
      (getChatHistory (msgs.foldl (fun t x => saveMessageToHistory x t)
        (initStore me)) peer).length = 5000) := by
  refine ⟨?_, fun me peer msgs h1 h2 => foldl_save_eq_drop me peer msgs h1 h2, ?_⟩
  · intro s m u h
    cases hud : getUserData s with
    | none =>
      rw [saveMessageToHistory_of_no_userData m hud]
      exact h
    | some ud =>
      by_cases hv : u = otherUser ud m
      · subst hv
        rw [getChatHistory_save_self m hud]
        split
        · exact h
        · refine length_capConv_le _ ?_
          rw [sortTs_length, List.length_append]
          simp
          omega
      · rw [getChatHistory_save_ne m hud u hv]
        exact h
  · intro me peer msgs h1 h2 h3
    rw [foldl_save_eq_drop me peer msgs h1 h2, List.length_drop, sortTs_length, h3]

/-- The `i`-th message of the 5001-message retention scenario: distinct ids,
increasing timestamps, all from alice to bob. -/
def mkCapMsg (i : Nat) : StoredMessage :=
  { id := String.mk (List.replicate i 'a'), «from» := "alice", «to» := "bob",
    encrypted := ⟨⟨[1]⟩, ⟨[2]⟩, ⟨[3]⟩⟩, timestamp := (i : Int), decrypted := none }

lemma mkCapMsg_id_inj {a b : Nat} (h : (mkCapMsg a).id = (mkCapMsg b).id) : a = b := by
  have h1 : List.replicate a 'a' = List.replicate b 'a' := congrArg String.data h
  have h2 := congrArg List.length h1
  simpa using h2

/-- 5001 distinct messages of one conversation. -/
def capMsgs : List StoredMessage := (List.range 5001).map mkCapMsg

/-- C5 witness: the hypotheses hold for the concrete 5001-message list, and
exactly 5000 messages are retained after appending all of them. -/
theorem retention_cap_witness :
    capMsgs.Pairwise (fun a b => a.id ≠ b.id) ∧
      (∀ x ∈ capMsgs, otherUser aliceUser x = "bob") ∧
      capMsgs.length = 5001 ∧
      (getChatHistory (capMsgs.foldl (fun t x => saveMessageToHistory x t)
        (initStore aliceUser)) "bob").length = 5000 := by
  have hids : capMsgs.Pairwise (fun a b => a.id ≠ b.id) := by
    refine List.pairwise_map.mpr ?_
    refine List.Pairwise.imp ?_ (List.pairwise_lt_range 5001)
    intro a b hab he
    exact absurd (mkCapMsg_id_inj he) (by omega)
  have hpeer : ∀ x ∈ capMsgs, otherUser aliceUser x = "bob" := by
    intro x hx
    obtain ⟨i, _, rfl⟩ := List.mem_map.mp hx
    rfl
  have hlen : capMsgs.length = 5001 := by simp [capMsgs]
  exact ⟨hids, hpeer, hlen,
    retention_cap.2.2 aliceUser "bob" capMsgs hids hpeer hlen⟩

/-- The payload delivered to the `onMessage` handler of
`ChatInterface.tsx` (lines 99-130): a parsed data-channel frame.  The JS
falsy-default `data.id || Date.now().toString()` and
`data.timestamp || Date.now()` are modelled on the absent case. -/
structure InboundData where
  type : String
  encrypted : Option EncryptedMessage
  id : Option String
  «from» : String
  «to» : String
  timestamp : Option Int

/-- The `onMessage` handler of `ChatInterface.tsx` lines 99-130.  Returns the
local storage, the React message list, and whether the `catch` branch ran
(`console.error('Failed to decrypt message:')`, line 128).  On successful
decryption it caches the plaintext, saves to history and appends to the list;
the `try`/`catch` is the `match` on the `decryptMessage` result. -/
def onMessageHandler (userData : UserData) (now : Int) (data : InboundData)
    (s : Store) (messages : List StoredMessage) : Store × List StoredMessage × Bool :=
  match data.encrypted with
  | none => (s, messages, false)
  | some enc =>
    if data.type == "encrypted_message" then
      let message : StoredMessage :=
        { id := data.id.getD (toString now), «from» := data.«from», «to» := data.«to»,
          encrypted := enc, timestamp := data.timestamp.getD now, decrypted := none }
      match decryptMessage enc (stringToKey enc.publicKey) (stringToKey userData.privateKey) with
      | some d =>
        let decryptedMessage := { message with decrypted := some d }
        (saveMessageToHistory decryptedMessage s, messages ++ [decryptedMessage], false)
      | none => (s, messages, true)
    else (s, messages, false)

/-- C2 (amended). When decryption of an inbound encrypted message fails, the
handler catches the error rather than crashing and only logs it: local
storage and the message list are returned unchanged — the raw envelope is
NOT appended to history and no event beyond the console error is raised. -/
theorem undecryptable_message_dropped (userData : UserData) (now : Int) (data : InboundData)
    (s : Store) (messages : List StoredMessage) (enc : EncryptedMessage)
    (henc : data.encrypted = some enc)
    (htype : data.type = "encrypted_message")
    (hfail : decryptMessage enc (stringToKey enc.publicKey)
      (stringToKey userData.privateKey) = none) :
    onMessageHandler userData now data s messages = (s, messages, true) := by
  unfold onMessageHandler
  rw [henc]
  simp only [htype, beq_self_eq_true, if_true, hfail]

/-- An envelope whose decryption fails (empty ciphertext: the box open throws). -/
def badEnvelope : EncryptedMessage := ⟨⟨[]⟩, ⟨[]⟩, ⟨[]⟩⟩

/-- A concrete inbound frame carrying the undecryptable envelope. -/
def badInbound : InboundData :=
  { type := "encrypted_message", encrypted := some badEnvelope, id := some "x1",
    «from» := "mallory", «to» := "alice", timestamp := some 5 }

/-- C2 counterexample: on a concrete inbound message whose decryption fails,
the handler leaves the history store untouched — `getChatHistory` for the
sender is still empty afterwards, so the envelope is not retained, contrary
to the claim. -/
theorem undecryptable_message_dropped_counterexample :
    onMessageHandler aliceUser 0 badInbound (initStore aliceUser) []
        = (initStore aliceUser, [], true) ∧
      getChatHistory (onMessageHandler aliceUser 0 badInbound (initStore aliceUser) []).1
        "mallory" = [] :=
  ⟨rfl, rfl⟩

/-- C2 witness for the amended theorem: the failing envelope satisfies every
hypothesis and the handler returns the store unchanged with the error logged. -/
theorem undecryptable_message_dropped_witness :
    badInbound.encrypted = some badEnvelope ∧
      badInbound.type = "encrypted_message" ∧
      decryptMessage badEnvelope (stringToKey badEnvelope.publicKey)
        (stringToKey aliceUser.privateKey) = none ∧
      onMessageHandler aliceUser 7 badInbound demoLoggedInStore [demoMsg]
        = (demoLoggedInStore, [demoMsg], true) :=
  ⟨rfl, rfl, rfl,
    undecryptable_message_dropped aliceUser 7 badInbound demoLoggedInStore [demoMsg]
      badEnvelope rfl rfl rfl⟩

/-- Reconnection bookkeeping of `ChatWebSocket` (`websocket.ts` lines 51-52):
`reconnectAttempts` starts at 0, `maxReconnectAttempts` is 5. -/
structure WsState where
  reconnectAttempts : Nat
  maxReconnectAttempts : Nat
deriving DecidableEq, Repr

/-- The scheduling effect of the `onclose` handler. -/
inductive WsCloseAction where
  | scheduleReconnect (delayMs : Nat)
  | maxAttemptsReached
  | noReconnect
deriving DecidableEq, Repr

def WsCloseAction.isReconnect : WsCloseAction → Bool
  | .scheduleReconnect _ => true
  | _ => false

/-- The `ws.onclose` handler (`websocket.ts` lines 113-147).  The `Bool`
records that `onDisconnectCallback` is invoked on every close.  Reconnection
is attempted only for an unclean close with non-empty credentials while under
the bound, with delay `1000 * reconnectAttempts` after the increment; at the
bound the handler logs the terminal `Max reconnection attempts reached`. -/
def onCloseHandler (st : WsState) (wasClean : Bool) (username publicKey : String) :
    WsState × Bool × WsCloseAction :=
  if wasClean = false ∧ username ≠ "" ∧ publicKey ≠ "" ∧
      st.reconnectAttempts < st.maxReconnectAttempts then
    ({ st with reconnectAttempts := st.reconnectAttempts + 1 }, true,
      .scheduleReconnect (1000 * (st.reconnectAttempts + 1)))
  else if st.reconnectAttempts ≥ st.maxReconnectAttempts then
    (st, true, .maxAttemptsReached)
  else
    (st, true, .noReconnect)

/-- The state of a freshly constructed `ChatWebSocket`. -/
def initialWsState : WsState := ⟨0, 5⟩

lemma onCloseHandler_step (n mx : Nat) (u p : String) (hu : u ≠ "") (hp : p ≠ "")
    (hn : n < mx) :
    onCloseHandler ⟨n, mx⟩ false u p
      = (⟨n + 1, mx⟩, true, .scheduleReconnect (1000 * (n + 1))) := by
  unfold onCloseHandler
  rw [if_pos ⟨rfl, hu, hp, hn⟩]

/-- C7. Relay reconnection policy: a clean close never schedules a reconnect;
an unclean close with credentials below the bound schedules attempt `n + 1`
after `1000 * (n + 1)` ms (so attempt `n` waits `n` times the base interval,
and successive delays strictly increase); once the attempt bound is reached
no reconnect is scheduled and the terminal condition is surfaced, while the
disconnect callback still fires. -/
theorem relay_reconnect_policy :
    (∀ (st : WsState) (u p : String),
      ((onCloseHandler st true u p).2.2).isReconnect = false ∧
        (onCloseHandler st true u p).2.1 = true) ∧
    (∀ (n mx : Nat) (u p : String), u ≠ "" → p ≠ "" → n < mx →
      onCloseHandler ⟨n, mx⟩ false u p
        = (⟨n + 1, mx⟩, true, .scheduleReconnect (1000 * (n + 1)))) ∧
    (∀ (n mx : Nat) (u p : String), u ≠ "" → p ≠ "" → n + 1 < mx →
      ∀ d1 d2 : Nat, (onCloseHandler ⟨n, mx⟩ false u p).2.2 = .scheduleReconnect d1 →
        (onCloseHandler ⟨n + 1, mx⟩ false u p).2.2 = .scheduleReconnect d2 →
        d1 < d2) ∧
    (∀ (n mx : Nat) (u p : String), mx ≤ n →
      onCloseHandler ⟨n, mx⟩ false u p = (⟨n, mx⟩, true, .maxAttemptsReached)) := by
  refine ⟨?_, ?_, ?_, ?_⟩
  · intro st u p
    unfold onCloseHandler
    rw [if_neg (by simp)]
    constructor
    · split <;> rfl
    · split <;> rfl
  · intro n mx u p hu hp hn
    exact onCloseHandler_step n mx u p hu hp hn
  · intro n mx u p hu hp hn d1 d2 h1 h2
    rw [onCloseHandler_step n mx u p hu hp (by omega)] at h1
    rw [onCloseHandler_step (n + 1) mx u p hu hp hn] at h2
    simp only [WsCloseAction.scheduleReconnect.injEq] at h1 h2
    omega
  · intro n mx u p hmx
    unfold onCloseHandler
    rw [if_neg (fun h => absurd h.2.2.2 (Nat.not_lt.mpr hmx)), if_pos hmx]

/-- C7 witness: from the fresh state, an unclean close with concrete
credentials schedules the first reconnect after 1000 ms. -/
theorem relay_reconnect_policy_witness :
    ("alice" ≠ "") ∧ ("pk" ≠ "") ∧ 0 < 5 ∧
      onCloseHandler initialWsState false "alice" "pk"
        = (⟨1, 5⟩, true, .scheduleReconnect 1000) :=
  ⟨by decide, by decide, by decide,
    relay_reconnect_policy.2.1 0 5 "alice" "pk" (by decide) (by decide) (by decide)⟩

/-- `RTCDataChannel.readyState` values. -/
inductive RTCDataChannelState where
  | connecting
  | «open»
  | closing
  | closed
deriving DecidableEq, Repr

/-- `WebSocket.readyState` values. -/
inductive WsReadyState where
  | CONNECTING
  | OPEN
  | CLOSING
  | CLOSED
deriving DecidableEq, Repr

/-- What an outbound `send` call does: hand the payload to the channel, throw
an error to the caller, or just log to the console and drop the payload. -/
inductive SendOutcome where
  | sent (payload : String)
  | raisedError (message : String)
  | droppedWithConsoleError (log : String)
deriving DecidableEq, Repr

def SendOutcome.isRaisedError : SendOutcome → Bool
  | .raisedError _ => true
  | _ => false

/-- The relevant constructed state of a `WebRTCManager` (`webrtc.ts` lines
31-35): signaling URL, username, public key — the private key is never handed
to the constructor. -/
structure WebRTCManager where
  signalingUrl : String
  username : String
  publicKey : B64
deriving DecidableEq, Repr

/-- `WebRTCManager.send` (`webrtc.ts` lines 164-171): sends when the data
channel exists and its readyState is `'open'`, otherwise logs and throws
`'Data channel not connected'`.  The mutable `dataChannel` field is the
explicit `dataChannel` argument. -/
def WebRTCManager.send (dataChannel : Option RTCDataChannelState) (message : String) :
    SendOutcome :=
  match dataChannel with
  | some RTCDataChannelState.«open» => .sent message
  | _ => .raisedError "Data channel not connected"

/-- `ChatWebSocket.send` (`websocket.ts` lines 154-160): sends when the socket
exists and is OPEN; otherwise it only runs
`console.error('WebSocket is not connected')` — no error reaches the caller
and the payload is dropped. -/
def ChatWebSocket.send (ws : Option WsReadyState) (message : String) : SendOutcome :=
  match ws with
  | some WsReadyState.OPEN => .sent message
  | _ => .droppedWithConsoleError "WebSocket is not connected"

/-- C8 (amended). With no open channel, `WebRTCManager.send` raises
`'Data channel not connected'` to the caller, but `ChatWebSocket.send` only
logs `'WebSocket is not connected'` to the console and drops the payload
without raising. -/
theorem send_when_not_open (dc : Option RTCDataChannelState) (ws : Option WsReadyState)
    (msg : String) (hdc : dc ≠ some RTCDataChannelState.«open»)
    (hws : ws ≠ some WsReadyState.OPEN) :
    WebRTCManager.send dc msg = .raisedError "Data channel not connected" ∧
      ChatWebSocket.send ws msg = .droppedWithConsoleError "WebSocket is not connected" := by
  constructor
  · cases dc with
    | none => rfl
    | some st =>
      cases st with
      | «open» => exact absurd rfl hdc
      | connecting => rfl
      | closing => rfl
      | closed => rfl
  · cases ws with
    | none => rfl
    | some st =>
      cases st with
      | OPEN => exact absurd rfl hws
      | CONNECTING => rfl
      | CLOSING => rfl
      | CLOSED => rfl

/-- C8 counterexample: with no socket, the relay `send` does not raise an
error — it returns only the console log, so the claim that every transport
variant fails explicitly is false. -/
theorem ws_send_silent_drop_counterexample :
    ChatWebSocket.send none "hello"
        = .droppedWithConsoleError "WebSocket is not connected" ∧
      (ChatWebSocket.send none "hello").isRaisedError = false :=
  ⟨rfl, rfl⟩

/-- C8 witness: both hypotheses hold for the closed concrete channels, and the
two variants behave as the amended claim states. -/
theorem send_when_not_open_witness :
    ((none : Option RTCDataChannelState) ≠ some RTCDataChannelState.«open») ∧
      ((some WsReadyState.CLOSED : Option WsReadyState) ≠ some WsReadyState.OPEN) ∧
      (WebRTCManager.send none "hi" = .raisedError "Data channel not connected" ∧
        ChatWebSocket.send (some WsReadyState.CLOSED) "hi"
          = .droppedWithConsoleError "WebSocket is not connected") :=
  ⟨by decide, by decide,
    send_when_not_open none (some WsReadyState.CLOSED) "hi" (by decide) (by decide)⟩

/-- The `{type: 'register', username, public_key}` frame sent by
`ChatWebSocket.connect` (`websocket.ts` lines 69-73). -/
structure RegisterFrame where
  type : String
  username : String
  public_key : B64
deriving DecidableEq, Repr

/-- `ChatWebSocket.connect` register frame built from the identity: `connect`
receives only the username and the public key. -/
def ChatWebSocket.registerFrameOf (ud : UserData) : RegisterFrame :=
  ⟨"register", ud.username, ud.publicKey⟩

/-- The `/api/register` body of `ChatInterface.tsx` lines 59-62. -/
structure RegisterBody where
  username : String
  public_key : B64
deriving DecidableEq, Repr

def registerBody (ud : UserData) : RegisterBody := ⟨ud.username, ud.publicKey⟩

/-- `new WebRTCManager(apiUrl, userData.username, userData.publicKey)`
(`ChatInterface.tsx` line 89). -/
def mkWebRTCManager (apiUrl : String) (ud : UserData) : WebRTCManager :=
  ⟨apiUrl, ud.username, ud.publicKey⟩

/-- The signaling body of `WebRTCManager.sendOffer` (`webrtc.ts` lines
176-191): from, to, serialized offer. -/
structure OfferBody where
  «from» : String
  «to» : String
  offer : String
deriving DecidableEq, Repr

def WebRTCManager.sendOfferBody (mgr : WebRTCManager) (dest offer : String) : OfferBody :=
  ⟨mgr.username, dest, offer⟩

/-- C9. The private key never appears in any outbound structure: the
`EncryptedMessage` produced by `encryptMessage` carries exactly ciphertext,
nonce and the sender's public key, and its nonce and publicKey fields are
unchanged under any change of the sender's private key (only the ciphertext
depends on it); the relay register frame, the HTTP register body, and the
signaling offer body built from an identity are all invariant under any
change of the private key and carry only the username and the public key. -/
theorem private_key_never_outbound :
    (∀ (p : String) (rpk spk n sk sk' : List Nat),
      (encryptMessage p rpk sk spk n).nonce = (encryptMessage p rpk sk' spk n).nonce ∧
      (encryptMessage p rpk sk spk n).publicKey = (encryptMessage p rpk sk' spk n).publicKey ∧
      (encryptMessage p rpk sk spk n).publicKey = keyToString spk ∧
      (encryptMessage p rpk sk spk n).nonce = keyToString n) ∧
    (∀ (u : String) (pk sk sk' : B64),
      ChatWebSocket.registerFrameOf ⟨u, pk, sk⟩ = ChatWebSocket.registerFrameOf ⟨u, pk, sk'⟩ ∧
      ChatWebSocket.registerFrameOf ⟨u, pk, sk⟩ = ⟨"register", u, pk⟩) ∧
    (∀ (u : String) (pk sk sk' : B64),
      registerBody ⟨u, pk, sk⟩ = registerBody ⟨u, pk, sk'⟩ ∧
      registerBody ⟨u, pk, sk⟩ = ⟨u, pk⟩) ∧
    (∀ (a u : String) (pk sk sk' : B64) (dest offer : String),
      (mkWebRTCManager a ⟨u, pk, sk⟩).sendOfferBody dest offer
        = (mkWebRTCManager a ⟨u, pk, sk'⟩).sendOfferBody dest offer ∧
      (mkWebRTCManager a ⟨u, pk, sk⟩).sendOfferBody dest offer = ⟨u, dest, offer⟩) :=
  ⟨fun _ _ _ _ _ _ => ⟨rfl, rfl, rfl, rfl⟩,
    fun _ _ _ _ => ⟨rfl, rfl⟩,
    fun _ _ _ _ => ⟨rfl, rfl⟩,
    fun _ _ _ _ _ _ _ => ⟨rfl, rfl⟩⟩
